import Mathlib

/-!
Shallow embedding of the phpmnd VS Code extension core (`src/extension.ts`):
the output mapper `parsePhpmndOutput` and the `checkDocument` control flow
around it.  Strings are modelled as `List Char`, a text document as the list
of its lines.  The JavaScript regular expressions of the source are embedded
by functions that reproduce the engine's leftmost, lazy/greedy backtracking
behaviour for the two concrete patterns used by the code.
-/

/-- JavaScript line terminators: the characters the regex `.` never matches. -/
def isLineTerm (c : Char) : Bool :=
  c == '\n' || c == '\r' || c == '\u2028' || c == '\u2029'

/-- The regex `.` class: any character except a line terminator. -/
def isDotC (c : Char) : Bool := !(isLineTerm c)

/-- The regex class `\d`. -/
def isDigitC (c : Char) : Bool := c.isDigit

/-- The regex class `\s`: JavaScript whitespace and line terminators. -/
def isWsC (c : Char) : Bool :=
  c == ' ' || c == '\t' || c == '\n' || c == '\x0b' || c == '\x0c' || c == '\r' ||
  c == '\u00A0' || c == '\u1680' || ('\u2000' ≤ c && c ≤ '\u200A') ||
  c == '\u2028' || c == '\u2029' || c == '\u202F' || c == '\u205F' ||
  c == '\u3000' || c == '\uFEFF'

/-- The character class of the magic-number capture in
`/Magic number: ([\d.]+)/`: a digit or a dot (any number of dots). -/
def isNumC (c : Char) : Bool := c.isDigit || c == '.'

/-- Backtracking search for `\s+(.+)` at the start of `s`, where the argument
`k` is the number of whitespace characters the greedy `\s+` currently tries to
consume (the initial call passes the length of the maximal whitespace run; the
engine then retreats one character at a time but must keep at least one).
Returns the `(.+)` capture: the maximal run of non-line-terminator characters
after the consumed whitespace, which must be nonempty. -/
def searchMsg (s : List Char) : Nat → Option (List Char)
  | 0 => none
  | k + 1 =>
      let m := (s.drop (k + 1)).takeWhile isDotC
      if m = [] then searchMsg s k else some m

/-- Matching `:(\d+):?\s+(.+)` against the start of the list: the anchored tail
of the source pattern `/^.*?:(\d+):?\s+(.+)/` (src/extension.ts line 201).
Returns the two captures (digit run, message). The optional `:?` is greedy: it
first consumes a colon when one is present, and on failure of `\s+(.+)` it
retries empty — in which case `\s+` faces that same colon and fails, so no
further alternative exists. -/
def matchTail : List Char → Option (List Char × List Char)
  | [] => none
  | c :: rest =>
      if c = ':' then
        if rest.takeWhile isDigitC = [] then none
        else
          match rest.drop (rest.takeWhile isDigitC).length with
          | [] => none
          | a :: after2 =>
              if a = ':' then
                (searchMsg after2 ((after2.takeWhile isWsC).length)).map
                  (fun m => (rest.takeWhile isDigitC, m))
              else
                (searchMsg (a :: after2) (((a :: after2).takeWhile isWsC).length)).map
                  (fun m => (rest.takeWhile isDigitC, m))
      else none

/-- `line.match(/^.*?:(\d+):?\s+(.+)/)` of src/extension.ts line 201: the lazy
`^.*?` tries the anchored tail at each successive position, consuming one
non-line-terminator character per failed attempt, and stops at the first
success (or at a line terminator, which `.` cannot consume). -/
def findMatch : List Char → Option (List Char × List Char)
  | [] => none
  | c :: rest =>
      match matchTail (c :: rest) with
      | some r => some r
      | none => if isDotC c then findMatch rest else none

/-- `output.split('\n')` of src/extension.ts line 196. -/
def splitOnNl : List Char → List (List Char)
  | [] => [[]]
  | c :: rest =>
      if c = '\n' then [] :: splitOnNl rest
      else
        match splitOnNl rest with
        | [] => [[c]]
        | l :: ls => (c :: l) :: ls

/-- JavaScript `String.prototype.trim`: strip the `\s` characters from both
ends (src/extension.ts line 205). -/
def jsTrim (s : List Char) : List Char :=
  ((s.dropWhile isWsC).reverse.dropWhile isWsC).reverse

/-- `parseInt(digits, 10)` on a captured `\d+` run. -/
def digitsToNat (ds : List Char) : Nat :=
  ds.foldl (fun acc c => acc * 10 + (c.toNat - '0'.toNat)) 0

/-- The literal `"Magic number: "` of the capture pattern on
src/extension.ts line 211. -/
def magicMarker : List Char :=
  ['M', 'a', 'g', 'i', 'c', ' ', 'n', 'u', 'm', 'b', 'e', 'r', ':', ' ']

/-- `message.match(/Magic number: ([\d.]+)/)` of src/extension.ts line 211:
scan left to right for a position where the literal marker occurs followed by
at least one `[\d.]` character; capture the maximal `[\d.]` run there.  A
position where the marker occurs but no class character follows is a failed
attempt and the scan moves one character right, as the engine does. -/
def extractMagic : List Char → Option (List Char)
  | [] => none
  | c :: rest =>
      if magicMarker.isPrefixOf (c :: rest) then
        if ((c :: rest).drop magicMarker.length).takeWhile isNumC = [] then
          extractMagic rest
        else
          some (((c :: rest).drop magicMarker.length).takeWhile isNumC)
      else extractMagic rest

/-- `lineText.indexOf(magicNumber)` of src/extension.ts line 216: index of the
first occurrence of `needle` as a plain substring, `none` for JavaScript's
`-1`. -/
def substrIndex? (needle : List Char) : List Char → Option Nat
  | [] => if needle.isPrefixOf ([] : List Char) then some 0 else none
  | c :: rest =>
      if needle.isPrefixOf (c :: rest) then some 0
      else (substrIndex? needle rest).map (· + 1)

/-- `vscode.DiagnosticSeverity`. -/
inductive Severity where
  | Error
  | Warning
  | Information
  | Hint
deriving DecidableEq

/-- `vscode.Range` as constructed on src/extension.ts lines 219-226: a pair of
(line, column) positions given as four integers. -/
structure Range where
  startLine : Int
  startCol : Int
  endLine : Int
  endCol : Int
deriving DecidableEq

/-- `vscode.Diagnostic` with the fields the extension sets. -/
structure Diagnostic where
  range : Range
  message : List Char
  severity : Severity
  source : List Char
deriving DecidableEq

/-- The body of the `for` loop of `parsePhpmndOutput` (src/extension.ts lines
198-234) for one output line: at most one diagnostic is pushed per line. -/
def parseLine (doc : List (List Char)) (line : List Char) : Option Diagnostic :=
  match findMatch line with
  | none => none
  | some (ds, rawMsg) =>
      let lineNumber : Int := (digitsToNat ds : Int) - 1
      let message := jsTrim rawMsg
      if 0 ≤ lineNumber ∧ lineNumber < (doc.length : Int) then
        let lineText := doc.getD lineNumber.toNat []
        let range : Range :=
          match extractMagic message with
          | some magicNumber =>
              match substrIndex? magicNumber lineText with
              | some idx =>
                  ⟨lineNumber, (idx : Int), lineNumber, ((idx + magicNumber.length : Nat) : Int)⟩
              | none => ⟨lineNumber, 0, lineNumber, (lineText.length : Int)⟩
          | none => ⟨lineNumber, 0, lineNumber, (lineText.length : Int)⟩
        some ⟨range, message, Severity.Warning, "phpmnd".data⟩
      else none

/-- `parsePhpmndOutput` (src/extension.ts lines 194-238): split the raw output
on newlines and push the diagnostic of each matching, in-bounds line in input
order. -/
def parsePhpmndOutput (output : List Char) (doc : List (List Char)) : List Diagnostic :=
  (splitOnNl output).filterMap (parseLine doc)

/-- Outcome of one `execAsync` call: resolved (exit zero) or rejected (thrown
error) with the captured stdout and stderr texts. -/
inductive ExecResult where
  | ok (stdout stderr : List Char)
  | err (stdout stderr : List Char)
deriving DecidableEq

/-- Observable effects of one `checkDocument` run (src/extension.ts lines
97-188): whether `parsePhpmndOutput` was invoked, the diagnostic sequence the
document's entry is replaced with, the `hasShownError` flag afterwards, and
whether the error notification was shown during this run. -/
structure CheckOutcome where
  mapperCalled : Bool
  diags : List Diagnostic
  flagAfter : Bool
  notified : Bool
deriving DecidableEq

/-- `checkDocument`'s success and catch paths (src/extension.ts lines 98-188):
a resolved call maps `stdout + stderr`; a rejected call with any captured
stdout or stderr text (JavaScript truthiness: nonempty string) is routed
through the very same mapping; a rejected call with no captured text never
calls the mapper, clears the document's diagnostics, shows the notification
only if `hasShownError` was unset, and sets the flag. -/
def checkDocument (hasShownError : Bool) (res : ExecResult) (doc : List (List Char)) :
    CheckOutcome :=
  match res with
  | ExecResult.ok out errOut =>
      ⟨true, parsePhpmndOutput (out ++ errOut) doc, hasShownError, false⟩
  | ExecResult.err out errOut =>
      if out ≠ [] ∨ errOut ≠ [] then
        ⟨true, parsePhpmndOutput (out ++ errOut) doc, hasShownError, false⟩
      else
        ⟨false, [], true, !hasShownError⟩

/-- A sequence of document checks sharing the module-level `hasShownError`
flag (src/extension.ts line 192): returns the final flag and the per-check
notification trace. -/
def runChecks (flag : Bool) : List (ExecResult × List (List Char)) → Bool × List Bool
  | [] => (flag, [])
  | c :: cs =>
      let o := checkDocument flag c.1 c.2
      let r := runChecks o.flagAfter cs
      (r.1, o.notified :: r.2)

/-! ### Helper lemmas -/

lemma takeWhile_all {f : Char → Bool} {l : List Char} (h : ∀ c ∈ l, f c = true) :
    l.takeWhile f = l :=
  List.takeWhile_eq_self_iff.mpr (by simpa using h)

lemma takeWhile_append_all {f : Char → Bool} {l : List Char} (s : List Char)
    (h : ∀ c ∈ l, f c = true) :
    (l ++ s).takeWhile f = l ++ s.takeWhile f := by
  induction l with
  | nil => rfl
  | cons c t ih =>
      have hc := h c (List.mem_cons_self c t)
      have ht := fun x hx => h x (List.mem_cons_of_mem c hx)
      simp [List.takeWhile_cons, hc, ih ht]

lemma nl_not_mem {l : List Char} (f : Char → Bool) (hf : f '\n' = false)
    (h : ∀ c ∈ l, f c = true) : '\n' ∉ l :=
  fun hm => absurd (h _ hm) (by simp [hf])

lemma splitOnNl_no_nl {l : List Char} (h : '\n' ∉ l) : splitOnNl l = [l] := by
  induction l with
  | nil => rfl
  | cons c t ih =>
      have hc : c ≠ '\n' := fun hc => h (hc ▸ List.mem_cons_self c t)
      have ht : '\n' ∉ t := fun hm => h (List.mem_cons_of_mem c hm)
      rw [splitOnNl, if_neg hc, ih ht]

lemma splitOnNl_append {a : List Char} (b : List Char) (h : '\n' ∉ a) :
    splitOnNl (a ++ '\n' :: b) = a :: splitOnNl b := by
  induction a with
  | nil => simp [splitOnNl]
  | cons c t ih =>
      have hc : c ≠ '\n' := fun hc => h (hc ▸ List.mem_cons_self c t)
      have ht : '\n' ∉ t := fun hm => h (List.mem_cons_of_mem c hm)
      rw [List.cons_append, splitOnNl, if_neg hc, ih ht]

lemma findMatch_skip {p : List Char} (s : List Char)
    (hp : ∀ c ∈ p, isDotC c = true ∧ c ≠ ':') :
    findMatch (p ++ s) = findMatch s := by
  induction p with
  | nil => rfl
  | cons c t ih =>
      have hc := hp c (List.mem_cons_self c t)
      have ht := fun x hx => hp x (List.mem_cons_of_mem c hx)
      have hmt : matchTail (c :: (t ++ s)) = none := by
        rw [matchTail, if_neg hc.2]
      show findMatch (c :: (t ++ s)) = findMatch s
      rw [findMatch, hmt]
      simp only [hc.1, if_true]
      exact ih ht

lemma matchTail_wf (ds copt mt : List Char) (mh : Char)
    (hcopt : copt = [':'] ∨ copt = [])
    (hds0 : ds ≠ []) (hds : ∀ c ∈ ds, isDigitC c = true)
    (hmh : isWsC mh = false) (hmhd : isDotC mh = true)
    (hmt : ∀ c ∈ mt, isDotC c = true) :
    matchTail (':' :: (ds ++ (copt ++ (' ' :: mh :: mt)))) = some (ds, mh :: mt) := by
  have hmsg : (mh :: mt).takeWhile isDotC = mh :: mt := by
    apply takeWhile_all
    intro c hc
    rcases List.mem_cons.mp hc with rfl | hc2
    · exact hmhd
    · exact hmt c hc2
  have hws : (' ' :: mh :: mt).takeWhile isWsC = [' '] := by
    simp [List.takeWhile_cons, hmh]
    decide
  have hsearch : searchMsg (' ' :: mh :: mt) 1 = some (mh :: mt) := by
    rw [searchMsg]
    simp [hmsg]
  have htw : (ds ++ (copt ++ (' ' :: mh :: mt))).takeWhile isDigitC = ds := by
    rw [takeWhile_append_all _ hds]
    rcases hcopt with rfl | rfl
    · simp [List.takeWhile_cons]
      decide
    · simp [List.takeWhile_cons]
      decide
  have hdrop : (ds ++ (copt ++ (' ' :: mh :: mt))).drop ds.length = copt ++ (' ' :: mh :: mt) :=
    List.drop_left ds _
  rw [matchTail, if_pos rfl, if_neg (by rw [htw]; exact hds0), htw, hdrop]
  rcases hcopt with rfl | rfl
  · simp only [List.singleton_append]
    simp [hws, hsearch]
  · simp only [List.nil_append]
    have hne : ¬ ((' ' : Char) = ':') := by decide
    simp [hne, hws, hsearch]

lemma findMatch_wf (p ds copt mt : List Char) (mh : Char)
    (hp : ∀ c ∈ p, isDotC c = true ∧ c ≠ ':')
    (hcopt : copt = [':'] ∨ copt = [])
    (hds0 : ds ≠ []) (hds : ∀ c ∈ ds, isDigitC c = true)
    (hmh : isWsC mh = false) (hmhd : isDotC mh = true)
    (hmt : ∀ c ∈ mt, isDotC c = true) :
    findMatch (p ++ ':' :: (ds ++ (copt ++ (' ' :: mh :: mt)))) = some (ds, mh :: mt) := by
  rw [findMatch_skip _ hp, findMatch,
      matchTail_wf ds copt mt mh hcopt hds0 hds hmh hmhd hmt]

lemma dropWhile_eq_self_head {f : Char → Bool} {l : List Char}
    (h : ∀ c ∈ l.head?, f c = false) : l.dropWhile f = l := by
  cases l with
  | nil => rfl
  | cons c t =>
      have hc : f c = false := h c rfl
      simp [List.dropWhile_cons, hc]

lemma jsTrim_eq_self {s : List Char}
    (h1 : ∀ c ∈ s.head?, isWsC c = false)
    (h2 : ∀ c ∈ s.getLast?, isWsC c = false) : jsTrim s = s := by
  unfold jsTrim
  rw [dropWhile_eq_self_head h1]
  rw [dropWhile_eq_self_head (by simpa [List.head?_reverse] using h2)]
  exact List.reverse_reverse s

lemma extractMagic_marker {tok : List Char} (h0 : tok ≠ [])
    (h1 : ∀ c ∈ tok, isNumC c = true) :
    extractMagic (magicMarker ++ tok) = some tok := by
  have hpre : magicMarker.isPrefixOf (magicMarker ++ tok) = true := by
    rw [List.isPrefixOf_iff_prefix]
    exact List.prefix_append _ _
  have hdrop : (magicMarker ++ tok).drop magicMarker.length = tok := List.drop_left _ _
  have htk : tok.takeWhile isNumC = tok := takeWhile_all h1
  have e : magicMarker ++ tok
      = 'M' :: (['a', 'g', 'i', 'c', ' ', 'n', 'u', 'm', 'b', 'e', 'r', ':', ' '] ++ tok) := rfl
  rw [e] at hpre hdrop
  rw [e, extractMagic, hpre]
  simp only [if_true, hdrop, htk, if_neg h0]


lemma parseLine_some {doc : List (List Char)} {line : List Char} {d : Diagnostic}
    (h : parseLine doc line = some d) :
    ∃ ds rawMsg, findMatch line = some (ds, rawMsg) ∧
      0 ≤ (digitsToNat ds : Int) - 1 ∧ (digitsToNat ds : Int) - 1 < (doc.length : Int) ∧
      d.severity = Severity.Warning ∧ d.source = "phpmnd".data ∧
      d.message = jsTrim rawMsg ∧
      d.range.startLine = (digitsToNat ds : Int) - 1 ∧
      d.range.endLine = (digitsToNat ds : Int) - 1 ∧
      ((∃ (idx : Nat) (tok : List Char),
          extractMagic (jsTrim rawMsg) = some tok ∧
          substrIndex? tok (doc.getD ((digitsToNat ds : Int) - 1).toNat []) = some idx ∧
          d.range.startCol = (idx : Int) ∧
          d.range.endCol = ((idx + tok.length : Nat) : Int))
       ∨ (d.range.startCol = 0 ∧
          d.range.endCol =
            ((doc.getD ((digitsToNat ds : Int) - 1).toNat []).length : Int))) := by
  rcases hm : findMatch line with _ | ⟨ds, rawMsg⟩
  · rw [parseLine, hm] at h
    exact absurd h (by simp)
  refine ⟨ds, rawMsg, rfl, ?_⟩
  rw [parseLine, hm] at h
  dsimp only at h
  split at h
  case isTrue hcond =>
    refine ⟨hcond.1, hcond.2, ?_⟩
    rcases hex : extractMagic (jsTrim rawMsg) with _ | tok
    · rw [hex] at h
      dsimp only at h
      obtain rfl := Option.some.inj h
      exact ⟨rfl, rfl, rfl, rfl, rfl, Or.inr ⟨rfl, rfl⟩⟩
    · rw [hex] at h
      dsimp only at h
      rcases hidx : substrIndex? tok (doc.getD ((digitsToNat ds : Int) - 1).toNat [])
          with _ | idx
      · rw [hidx] at h
        dsimp only at h
        obtain rfl := Option.some.inj h
        exact ⟨rfl, rfl, rfl, rfl, rfl, Or.inr ⟨rfl, rfl⟩⟩
      · rw [hidx] at h
        dsimp only at h
        obtain rfl := Option.some.inj h
        exact ⟨rfl, rfl, rfl, rfl, rfl, Or.inl ⟨idx, tok, rfl, hidx, rfl, rfl⟩⟩
  case isFalse =>
    exact absurd h (by simp)

lemma runChecks_true (cs : List (ExecResult × List (List Char))) :
    (runChecks true cs).1 = true ∧ (runChecks true cs).2.count true = 0 := by
  induction cs with
  | nil => simp [runChecks]
  | cons c t ih =>
      have hstep : (checkDocument true c.1 c.2).flagAfter = true ∧
          (checkDocument true c.1 c.2).notified = false := by
        rcases c with ⟨r, doc⟩
        cases r with
        | ok o e => simp [checkDocument]
        | err o e =>
            by_cases h : o ≠ [] ∨ e ≠ []
            · simp [checkDocument, h]
            · simp [checkDocument, h]
      rw [runChecks]
      dsimp only
      rw [hstep.1, hstep.2]
      simp [List.count_cons, ih.1, ih.2]

/-! ### The claims -/

/-- Claim C7: the Mapper is a total function of its two inputs (it is a plain
`def`, so it can neither throw nor diverge), unparsable lines contribute
nothing, and on raw output in which no line matches the pattern it returns the
empty sequence. -/
theorem claim_C7 (output : List Char) (doc : List (List Char))
    (h : ∀ l ∈ splitOnNl output, findMatch l = none) :
    parsePhpmndOutput output doc = [] := by
  rw [parsePhpmndOutput]
  exact List.filterMap_eq_nil_iff.mpr (fun l hl => by rw [parseLine, h l hl])

/-- Witness for C7 at a concrete violation-free analyzer output. -/
theorem claim_C7_witness :
    (∀ l ∈ splitOnNl ("phpmnd 3.2.0\n\nno violations found".data), findMatch l = none)
    ∧ parsePhpmndOutput ("phpmnd 3.2.0\n\nno violations found".data) ["abc".data] = [] :=
  ⟨by decide, claim_C7 ("phpmnd 3.2.0\n\nno violations found".data) ["abc".data] (by decide)⟩

/-- Claim C6: a rejected invocation that still captured stdout or stderr text
is routed through exactly the same mapping path as a resolved one, while a
rejected invocation with no captured text never calls the Mapper and replaces
the document's diagnostics with the empty sequence. -/
theorem claim_C6 (flag : Bool) (stdout stderr : List Char) (doc : List (List Char))
    (h : stdout ≠ [] ∨ stderr ≠ []) :
    checkDocument flag (ExecResult.err stdout stderr) doc
      = checkDocument flag (ExecResult.ok stdout stderr) doc
    ∧ (checkDocument flag (ExecResult.err stdout stderr) doc).diags
        = parsePhpmndOutput (stdout ++ stderr) doc
    ∧ checkDocument flag (ExecResult.err [] []) doc
        = ⟨false, [], true, !flag⟩ := by
  refine ⟨?_, ?_, ?_⟩
  · simp [checkDocument, h]
  · simp [checkDocument, h]
  · simp [checkDocument]

/-- Witness for C6 at a concrete rejected invocation with captured stdout. -/
theorem claim_C6_witness :
    (("x".data : List Char) ≠ [] ∨ (([] : List Char)) ≠ []) ∧
    checkDocument false (ExecResult.err ("x".data) []) []
      = checkDocument false (ExecResult.ok ("x".data) []) [] :=
  ⟨by decide, (claim_C6 false ("x".data) [] [] (by decide)).1⟩

/-- Claim C8: across any sequence of document checks the invocation-failure
notification fires at most once per process lifetime, and once the
`hasShownError` latch is set it stays set and no later failure re-triggers the
notification. -/
theorem claim_C8 (cs cs2 : List (ExecResult × List (List Char))) :
    (runChecks false cs).2.count true ≤ 1
    ∧ (runChecks true cs2).1 = true
    ∧ (runChecks true cs2).2.count true = 0 := by
  refine ⟨?_, (runChecks_true cs2).1, (runChecks_true cs2).2⟩
  induction cs with
  | nil => simp [runChecks]
  | cons c t ih =>
      rw [runChecks]
      dsimp only
      rcases c with ⟨r, doc⟩
      cases r with
      | ok o e =>
          simp only [checkDocument]
          simpa [List.count_cons] using ih
      | err o e =>
          by_cases h : o ≠ [] ∨ e ≠ []
          · simp only [checkDocument, if_pos h]
            simpa [List.count_cons] using ih
          · simp only [checkDocument, if_neg h]
            simp [List.count_cons, (runChecks_true t).2]

/-- Claim C3: every diagnostic the Mapper emits carries a line index that is
valid for the document (`0 ≤ line < doc.length`), and a matched output line
whose converted 0-based number is out of range yields no diagnostic at all
(dropped, not clamped; the mapper is total, so nothing can propagate). -/
theorem claim_C3 (output : List Char) (doc : List (List Char)) :
    (∀ d ∈ parsePhpmndOutput output doc,
        0 ≤ d.range.startLine ∧ d.range.startLine < (doc.length : Int))
    ∧ (∀ line ds rawMsg, findMatch line = some (ds, rawMsg) →
        ((digitsToNat ds : Int) - 1 < 0 ∨ (doc.length : Int) ≤ (digitsToNat ds : Int) - 1) →
        parseLine doc line = none) := by
  constructor
  · intro d hd
    rw [parsePhpmndOutput] at hd
    rcases List.mem_filterMap.mp hd with ⟨l, _, hpl⟩
    rcases parseLine_some hpl with ⟨ds, raw, _, hlo, hhi, _, _, _, hsl, _, _⟩
    rw [hsl]
    exact ⟨hlo, hhi⟩
  · intro line ds rawMsg hm hout
    rw [parseLine, hm]
    dsimp only
    rw [if_neg (by omega)]

/-- Witness for C3: scenario A's diagnostic is in range, and the out-of-range
line `/a/b.php:999: Magic number: 1` maps to nothing on a 5-line document. -/
theorem claim_C3_witness :
    ((⟨⟨4, 5, 4, 7⟩, "Magic number: 42".data, Severity.Warning, "phpmnd".data⟩ : Diagnostic)
        ∈ parsePhpmndOutput ("/a/b.php:5: Magic number: 42".data)
            (List.replicate 4 [] ++ ["$x = 42;".data]))
    ∧ (0 ≤ (⟨⟨4, 5, 4, 7⟩, "Magic number: 42".data, Severity.Warning,
          "phpmnd".data⟩ : Diagnostic).range.startLine
        ∧ (⟨⟨4, 5, 4, 7⟩, "Magic number: 42".data, Severity.Warning,
          "phpmnd".data⟩ : Diagnostic).range.startLine
            < ((List.replicate 4 ([] : List Char) ++ ["$x = 42;".data]).length : Int))
    ∧ parseLine (List.replicate 4 [] ++ ["$x = 42;".data])
        ("/a/b.php:999: Magic number: 1".data) = none :=
  ⟨by decide,
   (claim_C3 ("/a/b.php:5: Magic number: 42".data)
      (List.replicate 4 [] ++ ["$x = 42;".data])).1 _ (by decide),
   (claim_C3 ("/a/b.php:5: Magic number: 42".data)
      (List.replicate 4 [] ++ ["$x = 42;".data])).2
      ("/a/b.php:999: Magic number: 1".data) ("999".data)
      ("Magic number: 1".data) (by decide) (by decide)⟩

/-- Claim C10: every emitted diagnostic has a well-formed single-line range:
start line equals end line, the start column is nonnegative, and the start
column never exceeds the end column. -/
theorem claim_C10 (output : List Char) (doc : List (List Char)) :
    ∀ d ∈ parsePhpmndOutput output doc,
      d.range.startLine = d.range.endLine ∧ 0 ≤ d.range.startCol ∧
        d.range.startCol ≤ d.range.endCol := by
  intro d hd
  rw [parsePhpmndOutput] at hd
  rcases List.mem_filterMap.mp hd with ⟨l, _, hpl⟩
  rcases parseLine_some hpl with ⟨ds, raw, _, _, _, _, _, _, hsl, hel, hcols⟩
  refine ⟨hsl.trans hel.symm, ?_⟩
  rcases hcols with ⟨idx, tok, _, _, hs, he⟩ | ⟨hs, he⟩
  · rw [hs, he]
    constructor <;> [skip; push_cast] <;> omega
  · rw [hs, he]
    constructor <;> [skip; push_cast] <;> omega

/-- Witness for C10 at scenario B's full-line diagnostic. -/
theorem claim_C10_witness :
    ((⟨⟨4, 0, 4, 3⟩, "Some other hint without number".data, Severity.Warning,
        "phpmnd".data⟩ : Diagnostic)
      ∈ parsePhpmndOutput ("/a/b.php:5 Some other hint without number".data)
          (List.replicate 10 ("abc".data)))
    ∧ ((⟨⟨4, 0, 4, 3⟩, "Some other hint without number".data, Severity.Warning,
        "phpmnd".data⟩ : Diagnostic).range.startLine
          = (⟨⟨4, 0, 4, 3⟩, "Some other hint without number".data, Severity.Warning,
        "phpmnd".data⟩ : Diagnostic).range.endLine
      ∧ 0 ≤ (⟨⟨4, 0, 4, 3⟩, "Some other hint without number".data, Severity.Warning,
        "phpmnd".data⟩ : Diagnostic).range.startCol
      ∧ (⟨⟨4, 0, 4, 3⟩, "Some other hint without number".data, Severity.Warning,
        "phpmnd".data⟩ : Diagnostic).range.startCol
          ≤ (⟨⟨4, 0, 4, 3⟩, "Some other hint without number".data, Severity.Warning,
        "phpmnd".data⟩ : Diagnostic).range.endCol) :=
  ⟨by decide,
   claim_C10 ("/a/b.php:5 Some other hint without number".data)
     (List.replicate 10 ("abc".data)) _ (by decide)⟩

/-- Claim C9: every emitted diagnostic has the fixed severity Warning and the
fixed source tag `phpmnd`, and the mapping is one-diagnostic-per-matched-line
in input order: the diagnostics of the first raw line (zero or one of them)
precede exactly the diagnostics of the remaining lines. -/
theorem claim_C9 (output a b : List Char) (doc : List (List Char)) (h : '\n' ∉ a) :
    (∀ d ∈ parsePhpmndOutput output doc,
        d.severity = Severity.Warning ∧ d.source = "phpmnd".data)
    ∧ parsePhpmndOutput (a ++ '\n' :: b) doc
        = (parseLine doc a).toList ++ parsePhpmndOutput b doc := by
  constructor
  · intro d hd
    rw [parsePhpmndOutput] at hd
    rcases List.mem_filterMap.mp hd with ⟨l, _, hpl⟩
    rcases parseLine_some hpl with ⟨_, _, _, _, _, hsev, hsrc, _⟩
    exact ⟨hsev, hsrc⟩
  · rw [parsePhpmndOutput, splitOnNl_append b h, List.filterMap_cons]
    cases hpl : parseLine doc a <;> simp [hpl, parsePhpmndOutput]

/-- Witness for C9 on a two-line raw output. -/
theorem claim_C9_witness :
    ('\n' ∉ ("f.php:1 Magic number: 9".data : List Char)) ∧
    parsePhpmndOutput ("f.php:1 Magic number: 9".data ++ '\n' :: "g".data) ["x 9".data]
      = (parseLine ["x 9".data] ("f.php:1 Magic number: 9".data)).toList
        ++ parsePhpmndOutput ("g".data) ["x 9".data] :=
  ⟨by decide, (claim_C9 [] ("f.php:1 Magic number: 9".data) ("g".data)
      ["x 9".data] (by decide)).2⟩

/-- Counterexample to claim C4 as stated: on the message
`Magic number: 1.2.3` the extraction regex `[\d.]+` captures `1.2.3`, a token
containing two dot characters, so the extracted token is not limited to at
most one decimal point. -/
theorem claim_C4_counterexample :
    extractMagic ("Magic number: 1.2.3".data) = some ("1.2.3".data)
    ∧ ("1.2.3".data).count '.' = 2 := by
  constructor
  · decide
  · decide

/-- Claim C4 as amended: the token the Mapper extracts from a message is the
maximal run of digits and dots following "Magic number: " — nonempty and
composed only of `[\d.]` characters, with no bound on the number of dots. -/
theorem claim_C4_theorem (msg tok : List Char) (h : extractMagic msg = some tok) :
    tok ≠ [] ∧ ∀ c ∈ tok, isNumC c = true := by
  induction msg with
  | nil =>
      rw [extractMagic] at h
      exact absurd h (by simp)
  | cons c rest ih =>
      rw [extractMagic] at h
      split at h
      · split at h
        · exact ih h
        · rename_i hne
          obtain rfl := Option.some.inj h
          exact ⟨hne, fun x hx => List.mem_takeWhile_imp hx⟩
      · exact ih h

/-- Witness for the amended C4 at the message `Magic number: 7.5`. -/
theorem claim_C4_witness :
    extractMagic ("Magic number: 7.5".data) = some ("7.5".data)
    ∧ (("7.5".data : List Char) ≠ [] ∧ ∀ c ∈ ("7.5".data : List Char), isNumC c = true) :=
  ⟨by decide, claim_C4_theorem ("Magic number: 7.5".data) ("7.5".data) (by decide)⟩

/-- Counterexample to claim C2 as stated: on the raw line `x:1: y:2: z` (two
colon-digit-whitespace segments) the code's lazy `^.*?` anchors at the FIRST
such colon, so the emitted diagnostic has line index 0 and message `y:2: z`;
the claim's "last such colon" reading would instead give line index 1 with
message `z` (and full-line range over the one-character line `B`). -/
theorem claim_C2_counterexample :
    parsePhpmndOutput ("x:1: y:2: z".data) ["A".data, "B".data, "C".data]
      = [⟨⟨0, 0, 0, 1⟩, "y:2: z".data, Severity.Warning, "phpmnd".data⟩]
    ∧ parsePhpmndOutput ("x:1: y:2: z".data) ["A".data, "B".data, "C".data]
      ≠ [⟨⟨1, 0, 1, 1⟩, "z".data, Severity.Warning, "phpmnd".data⟩] := by
  constructor
  · decide
  · decide

/-- Claim C2 as amended: the Mapper extracts the line-number token as the
decimal digits following the FIRST colon of the line that is followed by
digits, an optional colon, whitespace and a nonempty message (the leading
`.*?` is lazy), and everything after that whitespace is the message — even
when the message itself contains further colon-digit-whitespace segments. -/
theorem claim_C2_theorem (path ds copt mt : List Char) (mh : Char)
    (hpath : ∀ c ∈ path, isDotC c = true ∧ c ≠ ':')
    (hcopt : copt = [':'] ∨ copt = [])
    (hds0 : ds ≠ []) (hds : ∀ c ∈ ds, isDigitC c = true)
    (hmh : isWsC mh = false) (hmhd : isDotC mh = true)
    (hmt : ∀ c ∈ mt, isDotC c = true) :
    findMatch (path ++ ':' :: (ds ++ (copt ++ (' ' :: mh :: mt)))) = some (ds, mh :: mt) :=
  findMatch_wf path ds copt mt mh hpath hcopt hds0 hds hmh hmhd hmt

/-- Witness for the amended C2 on the line `x:1: y:2: z`: digits are captured
from the first viable colon and the message keeps the later segments. -/
theorem claim_C2_witness :
    (∀ c ∈ ("x".data : List Char), isDotC c = true ∧ c ≠ ':') ∧
    findMatch ("x:1: y:2: z".data) = some ("1".data, 'y' :: (":2: z".data)) := by
  refine ⟨by decide, ?_⟩
  have h := claim_C2_theorem ("x".data) ("1".data) [':'] (":2: z".data) 'y'
      (by decide) (Or.inl rfl) (by decide) (by decide) (by decide) (by decide) (by decide)
  have e : ("x:1: y:2: z".data : List Char)
      = "x".data ++ ':' :: ("1".data ++ ([':'] ++ (' ' :: 'y' :: (":2: z".data)))) := by decide
  rw [e]
  exact h

/-- Claim C5: a matched output line with an in-bounds line number whose message
yields no numeric token (including messages without "Magic number: " at all),
or whose token does not occur verbatim in the target line's text, still
produces a diagnostic, with the fallback range spanning the full line from
column 0 to the line text's length. -/
theorem claim_C5 (doc : List (List Char)) (line ds rawMsg : List Char)
    (hm : findMatch line = some (ds, rawMsg))
    (hlo : 0 ≤ (digitsToNat ds : Int) - 1)
    (hhi : (digitsToNat ds : Int) - 1 < (doc.length : Int))
    (hbad : extractMagic (jsTrim rawMsg) = none ∨
        ∃ tok, extractMagic (jsTrim rawMsg) = some tok ∧
          substrIndex? tok (doc.getD ((digitsToNat ds : Int) - 1).toNat []) = none) :
    parseLine doc line
      = some ⟨⟨(digitsToNat ds : Int) - 1, 0, (digitsToNat ds : Int) - 1,
            ((doc.getD ((digitsToNat ds : Int) - 1).toNat []).length : Int)⟩,
          jsTrim rawMsg, Severity.Warning, "phpmnd".data⟩ := by
  rw [parseLine, hm]
  dsimp only
  rw [if_pos ⟨hlo, hhi⟩]
  rcases hbad with hex | ⟨tok, hex, hidx⟩
  · rw [hex]
  · rw [hex]
    dsimp only
    rw [hidx]

/-- Witness for C5 at scenario B: `/a/b.php:5 Some other hint without number`
on a 10-line document yields the full-line fallback diagnostic. -/
theorem claim_C5_witness :
    findMatch ("/a/b.php:5 Some other hint without number".data)
      = some ("5".data, "Some other hint without number".data)
    ∧ parseLine (List.replicate 10 ("ab".data))
        ("/a/b.php:5 Some other hint without number".data)
      = some ⟨⟨4, 0, 4, 2⟩, "Some other hint without number".data,
          Severity.Warning, "phpmnd".data⟩ := by
  refine ⟨by decide, ?_⟩
  have h := claim_C5 (List.replicate 10 ("ab".data))
      ("/a/b.php:5 Some other hint without number".data) ("5".data)
      ("Some other hint without number".data) (by decide) (by decide) (by decide)
      (Or.inl (by decide))
  rw [h]
  decide

/-- Claim C1: for every well-formed analyzer line
`<path>:<N>[:] Magic number: <num>` (path free of colons and line
terminators, nonempty digit run, numeric token of `[\d.]` characters that are
neither whitespace nor line terminators) whose line number is in bounds and
whose token occurs verbatim in the target line's text at first index `i`,
the Mapper emits exactly one diagnostic spanning exactly columns
`[i, i + |num|)` of line `N - 1` with message `Magic number: <num>`. -/
theorem claim_C1 (path ds copt tr : List Char) (t0 : Char)
    (doc : List (List Char)) (i : Nat)
    (hpath : ∀ c ∈ path, isDotC c = true ∧ c ≠ ':')
    (hcopt : copt = [':'] ∨ copt = [])
    (hds0 : ds ≠ []) (hds : ∀ c ∈ ds, isDigitC c = true)
    (hnum : ∀ c ∈ t0 :: tr, isNumC c = true)
    (hnw : ∀ c ∈ t0 :: tr, isWsC c = false)
    (hnd : ∀ c ∈ t0 :: tr, isDotC c = true)
    (hlo : 0 ≤ (digitsToNat ds : Int) - 1)
    (hhi : (digitsToNat ds : Int) - 1 < (doc.length : Int))
    (hfound : substrIndex? (t0 :: tr)
        (doc.getD ((digitsToNat ds : Int) - 1).toNat []) = some i) :
    parsePhpmndOutput
        (path ++ ':' :: (ds ++ (copt ++ (' ' :: (magicMarker ++ t0 :: tr))))) doc
      = [⟨⟨(digitsToNat ds : Int) - 1, (i : Int), (digitsToNat ds : Int) - 1,
            ((i + (t0 :: tr).length : Nat) : Int)⟩,
          magicMarker ++ t0 :: tr, Severity.Warning, "phpmnd".data⟩] := by
  have hmt' : ∀ c ∈ (['a', 'g', 'i', 'c', ' ', 'n', 'u', 'm', 'b', 'e', 'r', ':', ' ']
      ++ t0 :: tr), isDotC c = true := by
    intro c hc
    rcases List.mem_append.mp hc with hc | hc
    · fin_cases hc <;> decide
    · exact hnd c hc
  have hfm : findMatch (path ++ ':' :: (ds ++ (copt ++ (' ' :: (magicMarker ++ t0 :: tr)))))
      = some (ds, magicMarker ++ t0 :: tr) :=
    findMatch_wf path ds copt
      (['a', 'g', 'i', 'c', ' ', 'n', 'u', 'm', 'b', 'e', 'r', ':', ' '] ++ t0 :: tr) 'M'
      hpath hcopt hds0 hds (by decide) (by decide) hmt'
  have htrim : jsTrim (magicMarker ++ t0 :: tr) = magicMarker ++ t0 :: tr := by
    apply jsTrim_eq_self
    · intro c hc
      have hh : (magicMarker ++ t0 :: tr).head? = some 'M' := rfl
      rw [hh] at hc
      obtain rfl := Option.some.inj (Option.mem_def.mp hc)
      decide
    · intro c hc
      have he : (magicMarker ++ t0 :: tr).getLast? = (t0 :: tr).getLast? :=
        List.getLast?_append_of_ne_nil _ (List.cons_ne_nil _ _)
      rw [he] at hc
      have hcm : c ∈ t0 :: tr := by
        rcases List.mem_getLast?_eq_getLast hc with ⟨hne, rfl⟩
        exact List.getLast_mem hne
      exact hnw c hcm
  have hex : extractMagic (magicMarker ++ t0 :: tr) = some (t0 :: tr) :=
    extractMagic_marker (List.cons_ne_nil _ _) hnum
  have hnl : '\n' ∉ path ++ ':' :: (ds ++ (copt ++ (' ' :: (magicMarker ++ t0 :: tr)))) := by
    intro hmem
    rcases List.mem_append.mp hmem with hc | hc
    · exact absurd (hpath _ hc).1 (by decide)
    · rcases List.mem_cons.mp hc with he | hc
      · exact absurd he (by decide)
      · rcases List.mem_append.mp hc with hc | hc
        · exact absurd (hds _ hc) (by decide)
        · rcases List.mem_append.mp hc with hc | hc
          · rcases hcopt with rfl | rfl
            · exact absurd (List.mem_singleton.mp hc) (by decide)
            · exact absurd hc (List.not_mem_nil _)
          · rcases List.mem_cons.mp hc with he | hc
            · exact absurd he (by decide)
            · rcases List.mem_append.mp hc with hc | hc
              · exact absurd hc (by decide)
              · exact absurd (hnd _ hc) (by decide)
  have hpl : parseLine doc (path ++ ':' :: (ds ++ (copt ++ (' ' :: (magicMarker ++ t0 :: tr)))))
      = some ⟨⟨(digitsToNat ds : Int) - 1, (i : Int), (digitsToNat ds : Int) - 1,
            ((i + (t0 :: tr).length : Nat) : Int)⟩,
          magicMarker ++ t0 :: tr, Severity.Warning, "phpmnd".data⟩ := by
    rw [parseLine, hfm]
    dsimp only
    rw [if_pos ⟨hlo, hhi⟩, htrim, hex]
    dsimp only
    rw [hfound]
  rw [parsePhpmndOutput, splitOnNl_no_nl hnl]
  simp [List.filterMap_cons, hpl]

/-- Witness for C1 at end-to-end scenario A: raw line
`/a/b.php:5: Magic number: 42` against a 5-line document whose line 4 is
`$x = 42;` gives the single diagnostic at line 4, columns 5 to 7. -/
theorem claim_C1_witness :
    parsePhpmndOutput ("/a/b.php:5: Magic number: 42".data)
        (List.replicate 4 [] ++ ["$x = 42;".data])
      = [⟨⟨4, 5, 4, 7⟩, "Magic number: 42".data, Severity.Warning, "phpmnd".data⟩] := by
  have h := claim_C1 ("/a/b.php".data) ("5".data) [':'] ['2'] '4'
      (List.replicate 4 [] ++ ["$x = 42;".data]) 5
      (by decide) (Or.inl rfl) (by decide) (by decide) (by decide) (by decide)
      (by decide) (by decide) (by decide) (by decide)
  have e : ("/a/b.php:5: Magic number: 42".data : List Char)
      = "/a/b.php".data ++ ':' :: ("5".data ++ ([':'] ++ (' ' :: (magicMarker ++ '4' :: ['2']))))
      := by decide
  rw [e, h]
  decide
